import Mathlib

/-!
A verification development of the podium-generation pipeline of
`smtcomp/generate_website_page.py`.

The pipeline consumes a table of per-benchmark-per-solver results and a
selection table, and produces, per group value (division or logic) and per
scoring variant, a ranked list of per-solver aggregates together with a
declared winner.  The polars dataframe operations are embedded as explicit
list transformations: a dataframe is a list of rows, `group_by` keeps group
keys in order of first occurrence, aggregation sums/counts over the rows of
a group, and `sort` is insertion sort with the declared multi-column
comparator.  Integer score columns are embedded as `Int`; the float time
scores are embedded as `Int` as well, which preserves everything the
development states about them (sums, ordering, sign).

External collaborators that are not part of the sources here are embedded
abstractly or modelled from the spec, as noted on each definition: the
scoring module's variant filters and answer-classification predicates are
fields of an abstract `Scoring` structure, the enumeration name maps are
fields of an abstract `Defs` structure, and `intersect` (from
`smtcomp.utils`) is modelled from the spec as an inner join.

One machine-arithmetic detail is preserved exactly: `pl.len()` counts are
UInt32 columns, so the `abstained` column `total.first() - len()` is a
UInt32 subtraction that wraps at zero instead of going negative; it is
embedded as `subU32`, subtraction modulo `2 ^ 32` on `Nat`.
-/

namespace SmtComp

/-- Scoring variants: `smtcomp.scoring.Kind` (seq, par, sat, unsat, twentyfour). -/
inductive Kind : Type
  | seq
  | par
  | sat
  | unsat
  | twentyfour
deriving DecidableEq

/-- One row of the results dataframe: solver, group columns, track,
disagreement flag, an answer column consumed only by the classification
predicates, and the four per-row score columns. -/
structure ResultRow where
  solver : String
  division : Nat
  logic : Nat
  track : Nat
  disagreements : Bool
  answer : Nat
  error_score : Int
  correctly_solved_score : Int
  cpu_time_score : Int
  wallclock_time_score : Int
deriving DecidableEq

/-- One row of the selection dataframe. -/
structure SelectionRow where
  division : Nat
  logic : Nat
  selected : Bool
deriving DecidableEq

/-- The scoring module (`smtcomp.scoring`), an external collaborator of this
file's sources: the per-variant filter and the answer-classification
predicates are opaque functions. -/
structure Scoring where
  filter_for : Kind → List ResultRow → List ResultRow
  known_answer : ResultRow → Bool
  sat_answer : ResultRow → Bool
  unsat_answer : ResultRow → Bool
  unknown_answer : ResultRow → Bool
  timeout_answer : ResultRow → Bool
  memout_answer : ResultRow → Bool

/-- The enumeration module (`smtcomp.defs`), an external collaborator:
name maps for divisions and logics, and the integer code of the
single-query track. -/
structure Defs where
  divisionName : Nat → String
  logicName : Nat → String
  singleQuery : Nat

/-- The configuration values the pipeline consumes. -/
structure Config where
  current_year : Nat
  timelimit_s : Nat
  memlimit_M : Nat

/-- The grouping column of a result row: `division` when grouping by
division, `logic` when grouping by logic. -/
def groupKeyR (forDivision : Bool) (r : ResultRow) : Nat :=
  if forDivision then r.division else r.logic

/-- The grouping column of a selection row. -/
def groupKeyS (forDivision : Bool) (s : SelectionRow) : Nat :=
  if forDivision then s.division else s.logic

/-- Keys not yet seen, in order of first occurrence. -/
def firstKeysAux {α : Type} [DecidableEq α] (seen : List α) : List α → List α
  | [] => []
  | k :: l => if k ∈ seen then firstKeysAux seen l else k :: firstKeysAux (k :: seen) l

/-- Group keys in order of first occurrence, without duplicates: the keys a
`group_by` produces. -/
def firstKeys {α : Type} [DecidableEq α] (l : List α) : List α :=
  firstKeysAux [] l

/-- `selection.filter(selected=True)`. -/
def selectedRows (selection : List SelectionRow) : List SelectionRow :=
  selection.filter (fun s => s.selected)

/-- `len_by_division = selection.group_by(group_by).agg(total=pl.len())`:
one `(group, total)` pair per group value of the selected benchmarks. -/
def lenByGroup (forDivision : Bool) (selection : List SelectionRow) : List (Nat × Nat) :=
  (firstKeys ((selectedRows selection).map (groupKeyS forDivision))).map
    (fun g => (g, ((selectedRows selection).filter
      (fun s => decide (groupKeyS forDivision s = g))).length))

/-- Look a group value up in the totals table. -/
def lookupTotal (totals : List (Nat × Nat)) (g : Nat) : Option Nat :=
  (totals.find? (fun p => decide (p.1 = g))).map (fun p => p.2)

/-- Modelled from the spec: `intersect` comes from `smtcomp.utils`, which is
not among the sources.  Per the spec it inner-restricts the result rows to
group values present in the totals table, attaching the group's `total`
column to each surviving row. -/
def intersect (forDivision : Bool) (results : List ResultRow) (totals : List (Nat × Nat)) :
    List (ResultRow × Nat) :=
  results.filterMap (fun r => (lookupTotal totals (groupKeyR forDivision r)).map (fun t => (r, t)))

/-- `2 ^ 32`: the modulus of polars' UInt32 column arithmetic (`pl.len()`
and the totals derived from it are UInt32). -/
def u32 : Nat := 4294967296

/-- Wrapping UInt32 subtraction: arithmetic between two UInt32 columns stays
UInt32 and wraps at zero instead of going negative or raising. -/
def subU32 (a b : Nat) : Nat := (a % u32 + (u32 - b % u32)) % u32

/-- One aggregate record per (group, solver): the struct the aggregation of
`info_for_podium_step` produces.  `abstained` is a UInt32 column. -/
structure SolverAgg where
  solver : String
  error_score : Int
  correctly_solved_score : Int
  cpu_time_score : Int
  wallclock_time_score : Int
  solved : Nat
  solved_sat : Nat
  solved_unsat : Nat
  unsolved : Nat
  timeout : Nat
  memout : Nat
  abstained : Nat
deriving DecidableEq, Inhabited

/-- The joined rows belonging to one (group, solver) cell. -/
def rowsFor (forDivision : Bool) (g : Nat) (s : String) (joined : List (ResultRow × Nat)) :
    List (ResultRow × Nat) :=
  joined.filter (fun rt => decide (groupKeyR forDivision rt.1 = g) && decide (rt.1.solver = s))

/-- Count of rows whose underlying result row satisfies a classification
predicate (`(predicate).sum()` over a boolean column). -/
def countP (p : ResultRow → Bool) (rows : List (ResultRow × Nat)) : Nat :=
  (rows.filter (fun rt => p rt.1)).length

/-- The aggregation of `info_for_podium_step` for one (group, solver) cell:
sums of the four score columns, the six classification counts, and
`abstained = first(total) - len(rows)` — a subtraction of two UInt32
columns, so it wraps at zero (`subU32`) rather than going negative. -/
def aggFor (sc : Scoring) (forDivision : Bool) (g : Nat) (s : String)
    (joined : List (ResultRow × Nat)) : SolverAgg :=
  let rows := rowsFor forDivision g s joined
  { solver := s
    error_score := (rows.map (fun rt => rt.1.error_score)).sum
    correctly_solved_score := (rows.map (fun rt => rt.1.correctly_solved_score)).sum
    cpu_time_score := (rows.map (fun rt => rt.1.cpu_time_score)).sum
    wallclock_time_score := (rows.map (fun rt => rt.1.wallclock_time_score)).sum
    solved := countP sc.known_answer rows
    solved_sat := countP sc.sat_answer rows
    solved_unsat := countP sc.unsat_answer rows
    unsolved := countP sc.unknown_answer rows
    timeout := countP sc.timeout_answer rows
    memout := countP sc.memout_answer rows
    abstained := subU32 ((rows.head?.map (fun rt => rt.2)).getD 0) rows.length }

/-- The sort key of `.sort([group_by] + smtcomp.scoring.scores + ["solver"],
descending=True)` restricted to one group: the four score columns followed by
the solver name, compared lexicographically.  The order of the four score
fields is modelled from the spec (`smtcomp.scoring.scores` is not among the
sources): it is the fixed declared order in which the aggregation sums them
(error, correctly-solved, cpu-time, wallclock-time). -/
def sortKey (a : SolverAgg) : Int ×ₗ (Int ×ₗ (Int ×ₗ (Int ×ₗ String))) :=
  toLex (a.error_score, toLex (a.correctly_solved_score,
    toLex (a.cpu_time_score, toLex (a.wallclock_time_score, a.solver))))

/-- `a` sorts no later than `b` in the descending sort: `b`'s key is ≤ `a`'s. -/
def aggLE (a b : SolverAgg) : Prop := sortKey b ≤ sortKey a

instance : DecidableRel aggLE := fun a b => inferInstanceAs (Decidable (sortKey b ≤ sortKey a))

instance : IsTotal SolverAgg aggLE := ⟨fun a b => le_total (sortKey b) (sortKey a)⟩

instance : IsTrans SolverAgg aggLE := ⟨fun _ _ _ h h' => le_trans h' h⟩

/-- `results.filter(track=int(defs.Track.SingleQuery)).drop("track")` (the
dropped column is simply never read afterwards). -/
def trackResults (dfs : Defs) (results : List ResultRow) : List ResultRow :=
  results.filter (fun r => decide (r.track = dfs.singleQuery))

/-- The joined table of `info_for_podium_step`: variant filter, then the
inner join against the totals table. -/
def joinedFor (sc : Scoring) (forDivision : Bool) (kind : Kind) (totals : List (Nat × Nat))
    (results : List ResultRow) : List (ResultRow × Nat) :=
  intersect forDivision (sc.filter_for kind results) totals

/-- The joined rows of one group value. -/
def groupRows (forDivision : Bool) (g : Nat) (joined : List (ResultRow × Nat)) :
    List (ResultRow × Nat) :=
  joined.filter (fun rt => decide (groupKeyR forDivision rt.1 = g))

/-- The RankedList of one group value for one variant: one aggregate per
solver occurring in the group, sorted descending by the score tuple and the
solver name. -/
def rankedFor (sc : Scoring) (forDivision : Bool) (g : Nat)
    (joined : List (ResultRow × Nat)) : List SolverAgg :=
  let gRows := groupRows forDivision g joined
  let solvers := firstKeys (gRows.map (fun rt => rt.1.solver))
  List.insertionSort aggLE (solvers.map (fun s => aggFor sc forDivision g s joined))

/-- The per-variant column of the final left join for one group value:
`null` (`none`) when the group value is absent from the variant's
aggregation output, the RankedList otherwise. -/
def infoFor (sc : Scoring) (forDivision : Bool) (kind : Kind) (totals : List (Nat × Nat))
    (results : List ResultRow) (g : Nat) : Option (List SolverAgg) :=
  let joined := joinedFor sc forDivision kind totals results
  if (groupRows forDivision g joined).isEmpty then none
  else some (rankedFor sc forDivision g joined)

/-- The per-division logic breakdown:
`selection.group_by("division","logic").agg(n=pl.len())` restricted to one
division — one `(logic, count)` pair per logic of the division's selected
benchmarks. -/
def logicsOf (selection : List SelectionRow) (dv : Nat) : List (Nat × Nat) :=
  let divRows := (selectedRows selection).filter (fun s => decide (s.division = dv))
  (firstKeys (divRows.map (fun s => s.logic))).map
    (fun l => (l, (divRows.filter (fun s => decide (s.logic = l))).length))

/-- The dictionary row of one group value after the multi-way left join. -/
structure GroupData where
  group : Nat
  total : Nat
  logics : List (Nat × Nat)
  seq : Option (List SolverAgg)
  par : Option (List SolverAgg)
  sat : Option (List SolverAgg)
  unsat : Option (List SolverAgg)
  twentyfour : Option (List SolverAgg)
deriving DecidableEq

/-- The per-variant column of a joined dictionary row. -/
def GroupData.kindAgg (d : GroupData) : Kind → Option (List SolverAgg)
  | .seq => d.seq
  | .par => d.par
  | .sat => d.sat
  | .unsat => d.unsat
  | .twentyfour => d.twentyfour

/-- Assemble the dictionary row of one group value with its total. -/
def groupDataFor (sc : Scoring) (dfs : Defs) (forDivision : Bool)
    (selection : List SelectionRow) (results : List ResultRow) (g : Nat) (t : Nat) :
    GroupData :=
  let totals := lenByGroup forDivision selection
  let res := trackResults dfs results
  { group := g
    total := t
    logics := if forDivision then logicsOf selection g else []
    seq := infoFor sc forDivision .seq totals res g
    par := infoFor sc forDivision .par totals res g
    sat := infoFor sc forDivision .sat totals res g
    unsat := infoFor sc forDivision .unsat totals res g
    twentyfour := infoFor sc forDivision .twentyfour totals res g }

/-- One entry of an emitted ranked list (`PodiumStep` of the source, a
pydantic model). -/
structure PodiumStep where
  name : String
  competing : String
  errorScore : Int
  correctScore : Int
  CPUScore : Int
  WallScore : Int
  solved : Nat
  solved_sat : Nat
  solved_unsat : Nat
  unsolved : Nat
  abstained : Nat
  timeout : Nat
  memout : Nat
deriving DecidableEq, Inhabited

/-- `podium_steps`: translate a (possibly `null`) RankedList into the output
entries; note `errorScore=-s["error_score"]` while the other three score
fields are copied unnegated. -/
def podium_steps (podium : Option (List SolverAgg)) : List PodiumStep :=
  match podium with
  | none => []
  | some l =>
    l.map (fun s =>
      { name := s.solver
        competing := "yes"
        errorScore := -s.error_score
        correctScore := s.correctly_solved_score
        CPUScore := s.cpu_time_score
        WallScore := s.wallclock_time_score
        solved := s.solved
        solved_sat := s.solved_sat
        solved_unsat := s.solved_unsat
        unsolved := s.unsolved
        abstained := s.abstained
        timeout := s.timeout
        memout := s.memout })

/-- `get_winner`: `"-"` when the list is `null` or the top entry's
correctness score is zero, the top entry's solver otherwise.  Indexing an
empty (non-`null`) list with `l[0]` raises in the original, embedded as
`none`. -/
def get_winner (l : Option (List SolverAgg)) : Option String :=
  match l with
  | none => some "-"
  | some [] => none
  | some (x :: _) => some (if x.correctly_solved_score = 0 then "-" else x.solver)

/-- The assembled ranking record of one group value (`PodiumDivision` of the
source). -/
structure PodiumDivision where
  resultdate : String
  year : Nat
  divisions : String
  participants : String
  disagreements : String
  division : String
  track : String
  n_benchmarks : Nat
  time_limit : Nat
  mem_limit : Nat
  logics : List (String × Nat)
  winner_seq : String
  winner_par : String
  winner_sat : String
  winner_unsat : String
  winner_24s : String
  sequential : List PodiumStep
  parallel : List PodiumStep
  sat : List PodiumStep
  unsat : List PodiumStep
  twentyfour : List PodiumStep
  layout : String
deriving DecidableEq, Inhabited

/-- Insert into a python dict embedded as an insertion-ordered association
list: an existing key is overwritten in place, a new key appended. -/
def dictInsert (m : List (String × Nat)) (kv : String × Nat) : List (String × Nat) :=
  if m.any (fun p => decide (p.1 = kv.1)) then
    m.map (fun p => if p.1 = kv.1 then kv else p)
  else m ++ [kv]

/-- `dict(pairs)`: build a python dict from a pair sequence. -/
def dictOfList (l : List (String × Nat)) : List (String × Nat) :=
  l.foldl dictInsert []

/-- `sorted` on (name, count) pairs: python tuple order, i.e. lexicographic. -/
def pairLE (p q : String × Nat) : Prop := toLex p ≤ toLex q

instance : DecidableRel pairLE := fun p q => inferInstanceAs (Decidable (toLex p ≤ toLex q))

instance : IsTotal (String × Nat) pairLE := ⟨fun p q => le_total (toLex p) (toLex q)⟩

instance : IsTrans (String × Nat) pairLE := ⟨fun _ _ _ h h' => le_trans (α := Lex (String × Nat)) h h'⟩

/-- `make_podium`: assemble the ranking record of one joined dictionary row.
Fallible because `get_winner` is. -/
def make_podium (config : Config) (dfs : Defs) (for_division : Bool) (d : GroupData) :
    Option PodiumDivision := do
  let division := if for_division then dfs.divisionName d.group else dfs.logicName d.group
  let logics := if for_division then
      dictOfList (d.logics.map (fun p => (dfs.logicName p.1, p.2)))
    else []
  let wseq ← get_winner d.seq
  let wpar ← get_winner d.par
  let wsat ← get_winner d.sat
  let wunsat ← get_winner d.unsat
  let w24 ← get_winner d.twentyfour
  pure
    { resultdate := "2024-07-08"
      year := config.current_year
      divisions := "divisions_" ++ toString config.current_year
      participants := "participants_" ++ toString config.current_year
      disagreements := "disagreements_" ++ toString config.current_year
      division := division
      track := "track_single_query"
      n_benchmarks := d.total
      time_limit := config.timelimit_s
      mem_limit := config.memlimit_M
      logics := List.insertionSort pairLE logics
      winner_seq := wseq
      winner_par := wpar
      winner_sat := wsat
      winner_unsat := wunsat
      winner_24s := w24
      sequential := podium_steps d.seq
      parallel := podium_steps d.par
      sat := podium_steps d.sat
      unsat := podium_steps d.unsat
      twentyfour := podium_steps d.twentyfour
      layout := "result" }

/-- Sequence a list of optional values, propagating the first failure (the
dict comprehension of `sq_generate_datas` propagates exceptions). -/
def optionsAll {α : Type} : List (Option α) → Option (List α)
  | [] => some []
  | none :: _ => none
  | some a :: l => (optionsAll l).map (fun out => a :: out)

/-- `sq_generate_datas`: one `(display name, ranking record)` pair per group
value of the totals table; group values absent from a variant's aggregation
output carry `none` in that variant's column of the joined row (left join). -/
def sq_generate_datas (sc : Scoring) (dfs : Defs) (config : Config)
    (selection : List SelectionRow) (results : List ResultRow) (forDivision : Bool) :
    Option (List (String × PodiumDivision)) :=
  let nameOfInt := if forDivision then dfs.divisionName else dfs.logicName
  optionsAll ((lenByGroup forDivision selection).map (fun gt =>
    (make_podium config dfs forDivision
        (groupDataFor sc dfs forDivision selection results gt.1 gt.2)).map
      (fun pod => (nameOfInt gt.1, pod))))

/-- `export_results`: drop the disagreement-flagged rows, then generate the
records of both grouping keys.  The per-record file write is the external
serialization collaborator; the produced records themselves are the output. -/
def export_results (sc : Scoring) (dfs : Defs) (config : Config)
    (selection : List SelectionRow) (results : List ResultRow) :
    Option (List (String × PodiumDivision) × List (String × PodiumDivision)) :=
  let results := results.filter (fun r => !r.disagreements)
  do
    let dDiv ← sq_generate_datas sc dfs config selection results true
    let dLog ← sq_generate_datas sc dfs config selection results false
    pure (dDiv, dLog)

/-- The variant selector of the five RankedList fields of a record. -/
def PodiumDivision.kindSteps (p : PodiumDivision) : Kind → List PodiumStep
  | .seq => p.sequential
  | .par => p.parallel
  | .sat => p.sat
  | .unsat => p.unsat
  | .twentyfour => p.twentyfour

/-- The variant selector of the five winner fields of a record. -/
def PodiumDivision.kindWinner (p : PodiumDivision) : Kind → String
  | .seq => p.winner_seq
  | .par => p.winner_par
  | .sat => p.winner_sat
  | .unsat => p.winner_unsat
  | .twentyfour => p.winner_24s

/-- The spec's winner rule, stated on an emitted ranked list: the first
entry's solver, unless the list is empty or the first entry's correctness
score is zero, in which case the no-winner sentinel. -/
def winnerSpec : List PodiumStep → String
  | [] => "-"
  | x :: _ => if x.correctScore = 0 then "-" else x.name

/-- The number of selected benchmarks of one group value. -/
def totalSelected (forDivision : Bool) (selection : List SelectionRow) (g : Nat) : Nat :=
  ((selectedRows selection).filter (fun s => decide (groupKeyS forDivision s = g))).length

/-- A result row is classified into exactly one of the four counted outcomes
(solved / unknown / timed-out / out-of-memory). -/
def outcomeCount (sc : Scoring) (r : ResultRow) : Nat :=
  (if sc.known_answer r then 1 else 0) + (if sc.unknown_answer r then 1 else 0) +
    (if sc.timeout_answer r then 1 else 0) + (if sc.memout_answer r then 1 else 0)

/-! ### Concrete instances of the external collaborators and small inputs,
used to evaluate the pipeline on closed data -/

/-- A concrete scoring adapter: the identity variant filter and a
classification by the `answer` column. -/
def scW : Scoring where
  filter_for := fun _ rs => rs
  known_answer := fun r => r.answer == 0
  sat_answer := fun r => r.answer == 0
  unsat_answer := fun _ => false
  unknown_answer := fun r => r.answer == 1
  timeout_answer := fun r => r.answer == 2
  memout_answer := fun r => decide (3 ≤ r.answer)

/-- A concrete enumeration module. -/
def dfsW : Defs where
  divisionName := fun n => "d" ++ toString n
  logicName := fun n => "l" ++ toString n
  singleQuery := 0

/-- A concrete configuration. -/
def cfgW : Config where
  current_year := 2024
  timelimit_s := 20
  memlimit_M := 10

/-- One selected benchmark, division 0, logic 5. -/
def selW : List SelectionRow := [{ division := 0, logic := 5, selected := true }]

/-- One result row of solver A in division 0. -/
def rowW : ResultRow :=
  { solver := "A", division := 0, logic := 5, track := 0, disagreements := false,
    answer := 0, error_score := 2, correctly_solved_score := 1, cpu_time_score := 3,
    wallclock_time_score := 4 }

def resW : List ResultRow := [rowW]

/-- The record the assembly produces for division 0 on the small input. -/
def podW : PodiumDivision :=
  (make_podium cfgW dfsW true (groupDataFor scW dfsW true selW resW 0 1)).getD default

/-- The record the assembly produces when grouping by logic. -/
def podLW : PodiumDivision :=
  (make_podium cfgW dfsW false (groupDataFor scW dfsW false selW resW 0 1)).getD default

/-- The first emitted entry of the sequential list of `podW`. -/
def stepW : PodiumStep := (podW.kindSteps Kind.seq).headD default

/-- The aggregate of solver A on the small input. -/
def aggW : SolverAgg :=
  (rankedFor scW true 0 (joinedFor scW true Kind.seq (lenByGroup true selW)
    (trackResults dfsW resW))).headD default

/-- A disagreement-flagged row. -/
def rowFlagged : ResultRow := { rowW with disagreements := true, solver := "C" }

/-- A row of a track other than single-query. -/
def rowOtherTrack : ResultRow := { rowW with track := 7, solver := "D" }

/-- One selected benchmark in division 0. -/
def selC5 : List SelectionRow := [{ division := 0, logic := 0, selected := true }]

/-- A row of solver B in division 0. -/
def rowC5 : ResultRow :=
  { solver := "B", division := 0, logic := 0, track := 0, disagreements := false,
    answer := 0, error_score := 0, correctly_solved_score := 1, cpu_time_score := 1,
    wallclock_time_score := 1 }

/-- Solver B contributes two rows while the group has a single selected
benchmark. -/
def resC5 : List ResultRow := [rowC5, rowC5]

/-- The aggregate of solver B on the inconsistent input. -/
def aggC5 : SolverAgg :=
  (rankedFor scW true 0 (joinedFor scW true Kind.seq (lenByGroup true selC5)
    (trackResults dfsW resC5))).headD default

/-! ### Basic facts about the embedded dataframe operations -/

theorem mem_firstKeysAux {α : Type} [DecidableEq α] (l : List α) :
    ∀ (seen : List α) (x : α), x ∈ firstKeysAux seen l ↔ x ∈ l ∧ x ∉ seen := by
  induction l with
  | nil => intro seen x; simp [firstKeysAux]
  | cons k l ih =>
    intro seen x
    rw [firstKeysAux]
    by_cases hk : k ∈ seen
    · rw [if_pos hk, ih]
      by_cases hxk : x = k
      · subst hxk; simp [hk]
      · simp [List.mem_cons, hxk]
    · rw [if_neg hk]
      by_cases hxk : x = k
      · subst hxk; simp [hk]
      · simp [List.mem_cons, hxk, ih]

theorem mem_firstKeys {α : Type} [DecidableEq α] (l : List α) (x : α) :
    x ∈ firstKeys l ↔ x ∈ l := by
  rw [firstKeys, mem_firstKeysAux]
  simp

theorem nodup_firstKeysAux {α : Type} [DecidableEq α] (l : List α) :
    ∀ seen : List α, (firstKeysAux seen l).Nodup := by
  induction l with
  | nil => intro seen; simp [firstKeysAux]
  | cons k l ih =>
    intro seen
    rw [firstKeysAux]
    split
    · exact ih seen
    · refine List.Nodup.cons ?_ (ih (k :: seen))
      intro hk
      rw [mem_firstKeysAux] at hk
      exact hk.2 (List.mem_cons_self _ _)

theorem nodup_firstKeys {α : Type} [DecidableEq α] (l : List α) : (firstKeys l).Nodup :=
  nodup_firstKeysAux l []

theorem firstKeys_eq_nil {α : Type} [DecidableEq α] {l : List α}
    (h : firstKeys l = []) : l = [] := by
  cases l with
  | nil => rfl
  | cons k l =>
    rw [firstKeys, firstKeysAux] at h
    rw [if_neg (List.not_mem_nil k)] at h
    exact absurd h (by simp)

theorem mem_intersect {fd : Bool} {rs : List ResultRow} {totals : List (Nat × Nat)}
    {rt : ResultRow × Nat} (h : rt ∈ intersect fd rs totals) :
    rt.1 ∈ rs ∧ lookupTotal totals (groupKeyR fd rt.1) = some rt.2 := by
  simp only [intersect, List.mem_filterMap] at h
  obtain ⟨r, hr, hmap⟩ := h
  rw [Option.map_eq_some'] at hmap
  obtain ⟨t, hlk, heq⟩ := hmap
  cases heq
  exact ⟨hr, hlk⟩

theorem lookupTotal_lenByGroup {fd : Bool} {sel : List SelectionRow} {g t : Nat}
    (h : lookupTotal (lenByGroup fd sel) g = some t) : t = totalSelected fd sel g := by
  simp only [lookupTotal, Option.map_eq_some'] at h
  obtain ⟨p, hp, hpt⟩ := h
  have hpred := List.find?_some hp
  have hmem : p ∈ lenByGroup fd sel := List.mem_of_find?_eq_some hp
  simp only [decide_eq_true_eq] at hpred
  simp only [lenByGroup, List.mem_map] at hmem
  obtain ⟨g', hg'mem, hg'⟩ := hmem
  subst hpt
  have h1 : p.1 = g' := by rw [← hg']
  have h2 : p.2 = ((selectedRows sel).filter
      (fun s => decide (groupKeyS fd s = g'))).length := by rw [← hg']
  rw [h1] at hpred
  subst hpred
  rw [h2, totalSelected]

theorem mem_rowsFor {fd : Bool} {g : Nat} {s : String} {joined : List (ResultRow × Nat)}
    {rt : ResultRow × Nat} :
    rt ∈ rowsFor fd g s joined ↔ rt ∈ joined ∧ groupKeyR fd rt.1 = g ∧ rt.1.solver = s := by
  simp [rowsFor, List.mem_filter, and_assoc]

theorem mem_groupRows {fd : Bool} {g : Nat} {joined : List (ResultRow × Nat)}
    {rt : ResultRow × Nat} :
    rt ∈ groupRows fd g joined ↔ rt ∈ joined ∧ groupKeyR fd rt.1 = g := by
  simp [groupRows, List.mem_filter]

theorem aggFor_solver (sc : Scoring) (fd : Bool) (g : Nat) (s : String)
    (joined : List (ResultRow × Nat)) : (aggFor sc fd g s joined).solver = s := rfl

/-- Every element of a RankedList is the aggregate of its own solver, and
that solver contributed at least one joined row to the group. -/
theorem mem_rankedFor {sc : Scoring} {fd : Bool} {g : Nat}
    {joined : List (ResultRow × Nat)} {a : SolverAgg} (h : a ∈ rankedFor sc fd g joined) :
    a = aggFor sc fd g a.solver joined ∧ rowsFor fd g a.solver joined ≠ [] := by
  rw [rankedFor] at h
  have h' : a ∈ (firstKeys ((groupRows fd g joined).map (fun rt => rt.1.solver))).map
      (fun s => aggFor sc fd g s joined) :=
    (List.perm_insertionSort aggLE _).subset h
  simp only [List.mem_map] at h'
  obtain ⟨s, hs, rfl⟩ := h'
  rw [mem_firstKeys, List.mem_map] at hs
  obtain ⟨rt, hrt, hrts⟩ := hs
  rw [mem_groupRows] at hrt
  refine ⟨rfl, ?_⟩
  have : rt ∈ rowsFor fd g (aggFor sc fd g s joined).solver joined := by
    rw [aggFor_solver, mem_rowsFor]
    exact ⟨hrt.1, hrt.2, hrts⟩
  exact List.ne_nil_of_mem this

theorem aggFor_abstained {sc : Scoring} {fd : Bool} {g : Nat} {s : String}
    {joined : List (ResultRow × Nat)} {rt0 : ResultRow × Nat} {rest : List (ResultRow × Nat)}
    (hrows : rowsFor fd g s joined = rt0 :: rest) :
    (aggFor sc fd g s joined).abstained =
      subU32 rt0.2 (rowsFor fd g s joined).length := by
  simp [aggFor, hrows]

/-- The `total` column attached to any row of a (group, solver) cell over the
totals table built from the selection is the group's selected-benchmark
count. -/
theorem rowsFor_total {sc : Scoring} {dfs : Defs} {fd : Bool} {kind : Kind}
    {sel : List SelectionRow} {res : List ResultRow} {g : Nat} {s : String}
    {rt : ResultRow × Nat}
    (h : rt ∈ rowsFor fd g s (joinedFor sc fd kind (lenByGroup fd sel) (trackResults dfs res))) :
    rt.2 = totalSelected fd sel g := by
  rw [mem_rowsFor] at h
  obtain ⟨hj, hg, _⟩ := h
  have : rt.1 ∈ sc.filter_for kind (trackResults dfs res) ∧
      lookupTotal (lenByGroup fd sel) (groupKeyR fd rt.1) = some rt.2 := mem_intersect hj
  rw [hg] at this
  exact lookupTotal_lenByGroup this.2

theorem solver_eq_of_sortKey_eq {a b : SolverAgg} (h : sortKey a = sortKey b) :
    a.solver = b.solver := by
  simp only [sortKey, toLex_inj, Prod.mk.injEq] at h
  exact h.2.2.2.2

/-- The abstained column of a solver's aggregate, expressed through the
selection table: the group total attached by the join, minus the solver's
row count, in wrapping UInt32 arithmetic. -/
theorem abstained_eq {sc : Scoring} {dfs : Defs} {fd : Bool} {kind : Kind}
    {sel : List SelectionRow} {res : List ResultRow} {g : Nat} {a : SolverAgg}
    (h : a ∈ rankedFor sc fd g (joinedFor sc fd kind (lenByGroup fd sel) (trackResults dfs res))) :
    a.abstained = subU32 (totalSelected fd sel g)
      (rowsFor fd g a.solver
        (joinedFor sc fd kind (lenByGroup fd sel) (trackResults dfs res))).length := by
  obtain ⟨ha, hne⟩ := mem_rankedFor h
  obtain ⟨rt0, rest, hrows⟩ := List.exists_cons_of_ne_nil hne
  have hmem0 : rt0 ∈ rowsFor fd g a.solver
      (joinedFor sc fd kind (lenByGroup fd sel) (trackResults dfs res)) := by
    rw [hrows]; exact List.mem_cons_self _ _
  have htot : rt0.2 = totalSelected fd sel g := rowsFor_total hmem0
  rw [ha, aggFor_solver, aggFor_abstained hrows, htot]

theorem countP_partition (sc : Scoring) (rows : List (ResultRow × Nat))
    (h : ∀ rt ∈ rows, outcomeCount sc rt.1 = 1) :
    countP sc.known_answer rows + countP sc.unknown_answer rows +
      countP sc.timeout_answer rows + countP sc.memout_answer rows = rows.length := by
  induction rows with
  | nil => simp [countP]
  | cons rt rows ih =>
    have h1 := h rt (List.mem_cons_self _ _)
    have ih' := ih (fun x hx => h x (List.mem_cons_of_mem _ hx))
    rw [outcomeCount] at h1
    have step : ∀ p : ResultRow → Bool,
        countP p (rt :: rows) = countP p rows + (if p rt.1 then 1 else 0) := by
      intro p
      simp only [countP, List.filter_cons]
      by_cases hp : p rt.1 <;> simp [hp]
    rw [step sc.known_answer, step sc.unknown_answer, step sc.timeout_answer,
      step sc.memout_answer, List.length_cons]
    split_ifs at h1 ⊢ <;> omega

/-! ### C1: RankedList ordering -/

/-- **C1.** For every group value and every scoring variant (every joined
table), the produced RankedList is sorted strictly descending by the
lexicographic tuple of the four score fields followed by the solver
identifier: every earlier entry's sort key is strictly greater than every
later entry's, so the comparison is a strict total order on the list and no
two distinct entries compare equal. -/
theorem c1_rankedList_strict_descending (sc : Scoring) (forDivision : Bool) (g : Nat)
    (joined : List (ResultRow × Nat)) :
    (rankedFor sc forDivision g joined).Pairwise (fun a b => sortKey b < sortKey a) := by
  have hsorted : (rankedFor sc forDivision g joined).Pairwise aggLE := by
    simp only [rankedFor]
    exact List.sorted_insertionSort aggLE _
  have hperm : List.Perm (rankedFor sc forDivision g joined)
      ((firstKeys ((groupRows forDivision g joined).map (fun rt => rt.1.solver))).map
        (fun s => aggFor sc forDivision g s joined)) := by
    simp only [rankedFor]
    exact List.perm_insertionSort aggLE _
  have hpwMap : ((firstKeys ((groupRows forDivision g joined).map
      (fun rt => rt.1.solver))).map (fun s => aggFor sc forDivision g s joined)).Pairwise
      (fun a b => a.solver ≠ b.solver) := by
    rw [List.pairwise_map]
    exact nodup_firstKeys _
  have hpw : (rankedFor sc forDivision g joined).Pairwise
      (fun a b => a.solver ≠ b.solver) :=
    (hperm.pairwise_iff (fun {_ _} h he => h he.symm)).mpr hpwMap
  refine (hsorted.and hpw).imp ?_
  rintro a b ⟨hle, hne⟩
  exact lt_of_le_of_ne hle (fun he => hne (solver_eq_of_sortKey_eq he).symm)

theorem subU32_of_le {a b : Nat} (h : b ≤ a) (ha : a < u32) : subU32 a b = a - b := by
  simp only [subU32, u32] at ha ⊢
  omega

theorem subU32_of_gt {a b : Nat} (h : a < b) (hb : b < u32) : subU32 a b = u32 - (b - a) := by
  simp only [subU32, u32] at hb ⊢
  omega

theorem add_subU32_mod (t c : Nat) : (c + subU32 t c) % u32 = t % u32 := by
  simp only [subU32, u32]
  omega

/-! ### C3 and C4: aggregate arithmetic -/

/-- **C3 (amended).** For every group value, variant, and solver of that
variant's RankedList, if the classification predicates classify each
(variant-filtered) result row into exactly one of the four counted outcomes,
then solved + unsolved + timeout + memout + abstained equals the group's
count of selected benchmarks *modulo `2 ^ 32`*, because `abstained` is a
wrapping UInt32 subtraction; the exact (unreduced) equality holds whenever
the solver's row count does not exceed the group's total and the total fits
in a UInt32. -/
theorem c3_counts_sum_mod_u32 (sc : Scoring) (dfs : Defs) (forDivision : Bool) (kind : Kind)
    (selection : List SelectionRow) (results : List ResultRow) (g : Nat) (a : SolverAgg)
    (hpart : ∀ r ∈ sc.filter_for kind (trackResults dfs results), outcomeCount sc r = 1)
    (ha : a ∈ rankedFor sc forDivision g
      (joinedFor sc forDivision kind (lenByGroup forDivision selection)
        (trackResults dfs results))) :
    (a.solved + a.unsolved + a.timeout + a.memout + a.abstained) % u32 =
      totalSelected forDivision selection g % u32 ∧
    ((rowsFor forDivision g a.solver
        (joinedFor sc forDivision kind (lenByGroup forDivision selection)
          (trackResults dfs results))).length ≤ totalSelected forDivision selection g →
      totalSelected forDivision selection g < u32 →
      a.solved + a.unsolved + a.timeout + a.memout + a.abstained =
        totalSelected forDivision selection g) := by
  obtain ⟨haggr, _⟩ := mem_rankedFor ha
  have habst := abstained_eq ha
  have hrowpart : ∀ rt ∈ rowsFor forDivision g a.solver
      (joinedFor sc forDivision kind (lenByGroup forDivision selection)
        (trackResults dfs results)), outcomeCount sc rt.1 = 1 :=
    fun rt hrt => hpart rt.1 (mem_intersect (mem_rowsFor.mp hrt).1).1
  have hsum := countP_partition sc _ hrowpart
  have h1 : a.solved = countP sc.known_answer (rowsFor forDivision g a.solver
      (joinedFor sc forDivision kind (lenByGroup forDivision selection)
        (trackResults dfs results))) := by rw [haggr]; rfl
  have h2 : a.unsolved = countP sc.unknown_answer (rowsFor forDivision g a.solver
      (joinedFor sc forDivision kind (lenByGroup forDivision selection)
        (trackResults dfs results))) := by rw [haggr]; rfl
  have h3 : a.timeout = countP sc.timeout_answer (rowsFor forDivision g a.solver
      (joinedFor sc forDivision kind (lenByGroup forDivision selection)
        (trackResults dfs results))) := by rw [haggr]; rfl
  have h4 : a.memout = countP sc.memout_answer (rowsFor forDivision g a.solver
      (joinedFor sc forDivision kind (lenByGroup forDivision selection)
        (trackResults dfs results))) := by rw [haggr]; rfl
  constructor
  · rw [h1, h2, h3, h4, habst, hsum]
    exact add_subU32_mod _ _
  · intro hle hlt
    rw [h1, h2, h3, h4, habst, hsum, subU32_of_le hle hlt]
    omega

/-- **C3, counterexample.** With predicates classifying every row into
exactly one outcome, a solver contributing two rows to a group with a single
selected benchmark gets counts summing to `2 ^ 32 + 1`, not to the group's
total `1`: the unreduced sum identity fails on the code. -/
theorem c3_counterexample :
    (∀ r ∈ scW.filter_for Kind.seq (trackResults dfsW resC5), outcomeCount scW r = 1) ∧
    aggC5 ∈ rankedFor scW true 0 (joinedFor scW true Kind.seq (lenByGroup true selC5)
      (trackResults dfsW resC5)) ∧
    totalSelected true selC5 0 = 1 ∧
    aggC5.solved + aggC5.unsolved + aggC5.timeout + aggC5.memout + aggC5.abstained =
      4294967297 ∧
    aggC5.solved + aggC5.unsolved + aggC5.timeout + aggC5.memout + aggC5.abstained ≠
      totalSelected true selC5 0 :=
  ⟨by decide, by decide, rfl, rfl, by decide⟩

/-- **C4 (amended).** For every group value, variant, and solver of that
variant's RankedList, the abstained column equals the group's count of
selected benchmarks minus the solver's contributed row count (after the
track, variant, and selection filters) *in wrapping UInt32 arithmetic*; it
equals the plain difference whenever the row count does not exceed the total
and the total fits in a UInt32. -/
theorem c4_abstained_wrapped (sc : Scoring) (dfs : Defs) (forDivision : Bool)
    (kind : Kind) (selection : List SelectionRow) (results : List ResultRow) (g : Nat)
    (a : SolverAgg)
    (ha : a ∈ rankedFor sc forDivision g
      (joinedFor sc forDivision kind (lenByGroup forDivision selection)
        (trackResults dfs results))) :
    a.abstained = subU32 (totalSelected forDivision selection g)
      (rowsFor forDivision g a.solver
        (joinedFor sc forDivision kind (lenByGroup forDivision selection)
          (trackResults dfs results))).length ∧
    ((rowsFor forDivision g a.solver
        (joinedFor sc forDivision kind (lenByGroup forDivision selection)
          (trackResults dfs results))).length ≤ totalSelected forDivision selection g →
      totalSelected forDivision selection g < u32 →
      (a.abstained : Int) = (totalSelected forDivision selection g : Int) -
        ((rowsFor forDivision g a.solver
          (joinedFor sc forDivision kind (lenByGroup forDivision selection)
            (trackResults dfs results))).length : Int)) := by
  have habst := abstained_eq ha
  refine ⟨habst, fun hle hlt => ?_⟩
  rw [habst, subU32_of_le hle hlt]
  omega

/-- **C4, counterexample.** At a group with one selected benchmark and a
solver contributing two rows, the emitted abstained value is the wrapped
`4294967295`, not the integer difference `1 - 2 = -1`. -/
theorem c4_counterexample :
    (rankedFor scW true 0 (joinedFor scW true Kind.seq (lenByGroup true selC5)
      (trackResults dfsW resC5))).map SolverAgg.abstained = [4294967295] ∧
    totalSelected true selC5 0 = 1 ∧
    (rowsFor true 0 aggC5.solver (joinedFor scW true Kind.seq (lenByGroup true selC5)
      (trackResults dfsW resC5))).length = 2 ∧
    (aggC5.abstained : Int) ≠ (totalSelected true selC5 0 : Int) -
      ((rowsFor true 0 aggC5.solver (joinedFor scW true Kind.seq (lenByGroup true selC5)
        (trackResults dfsW resC5))).length : Int) :=
  ⟨rfl, rfl, rfl, by decide⟩

/-! ### Inversion and totality of the assembly step -/

/-- Inverting a successful `make_podium`: each winner field is the value
`get_winner` produced for its variant, each ranked-list field is the
translation of its variant's column, and the logic breakdown is the sorted
dictionary. -/
theorem make_podium_inv {config : Config} {dfs : Defs} {fd : Bool} {d : GroupData}
    {pod : PodiumDivision} (h : make_podium config dfs fd d = some pod) :
    (∀ k, get_winner (d.kindAgg k) = some (pod.kindWinner k)) ∧
    (∀ k, pod.kindSteps k = podium_steps (d.kindAgg k)) ∧
    pod.logics = List.insertionSort pairLE
      (if fd then dictOfList (d.logics.map (fun p => (dfs.logicName p.1, p.2))) else []) ∧
    pod.n_benchmarks = d.total := by
  cases h1 : get_winner d.seq with
  | none => simp [make_podium, h1] at h
  | some w1 =>
  cases h2 : get_winner d.par with
  | none => simp [make_podium, h1, h2] at h
  | some w2 =>
  cases h3 : get_winner d.sat with
  | none => simp [make_podium, h1, h2, h3] at h
  | some w3 =>
  cases h4 : get_winner d.unsat with
  | none => simp [make_podium, h1, h2, h3, h4] at h
  | some w4 =>
  cases h5 : get_winner d.twentyfour with
  | none => simp [make_podium, h1, h2, h3, h4, h5] at h
  | some w5 =>
    rw [make_podium] at h
    simp only [h1, h2, h3, h4, h5, Option.bind_eq_bind, Option.some_bind,
      Option.pure_def, Option.some.injEq] at h
    subst h
    refine ⟨?_, ?_, ?_, ?_⟩
    · intro k
      cases k <;>
        simp [GroupData.kindAgg, PodiumDivision.kindWinner, h1, h2, h3, h4, h5]
    · intro k
      cases k <;> simp [GroupData.kindAgg, PodiumDivision.kindSteps]
    · rfl
    · rfl

theorem get_winner_isSome {l : Option (List SolverAgg)} (h : l ≠ some []) :
    ∃ w, get_winner l = some w := by
  match l with
  | none => exact ⟨"-", rfl⟩
  | some [] => exact absurd rfl h
  | some (x :: t) => exact ⟨if x.correctly_solved_score = 0 then "-" else x.solver, rfl⟩

theorem rankedFor_eq_nil_iff {sc : Scoring} {fd : Bool} {g : Nat}
    {joined : List (ResultRow × Nat)} :
    rankedFor sc fd g joined = [] ↔ groupRows fd g joined = [] := by
  have hlen : (rankedFor sc fd g joined).length =
      (firstKeys ((groupRows fd g joined).map (fun rt => rt.1.solver))).length := by
    simp only [rankedFor]
    rw [(List.perm_insertionSort aggLE _).length_eq, List.length_map]
  constructor
  · intro h
    rw [h] at hlen
    have h2 : firstKeys ((groupRows fd g joined).map (fun rt => rt.1.solver)) = [] :=
      List.length_eq_zero.mp hlen.symm
    have h3 := firstKeys_eq_nil h2
    exact List.map_eq_nil_iff.mp h3
  · intro h
    have h2 : (rankedFor sc fd g joined).length = 0 := by
      rw [hlen, h]
      rfl
    exact List.length_eq_zero.mp h2

theorem infoFor_ne_some_nil (sc : Scoring) (fd : Bool) (kind : Kind)
    (totals : List (Nat × Nat)) (results : List ResultRow) (g : Nat) :
    infoFor sc fd kind totals results g ≠ some [] := by
  rw [infoFor]
  split
  · simp
  · next hne =>
    intro hcon
    rw [Option.some.injEq] at hcon
    rw [rankedFor_eq_nil_iff] at hcon
    rw [hcon] at hne
    simp at hne

/-- `make_podium` always succeeds on a joined dictionary row the pipeline
builds: the variant columns are `null` or non-empty lists, never empty. -/
theorem make_podium_groupDataFor_isSome (sc : Scoring) (dfs : Defs) (config : Config)
    (fd : Bool) (sel : List SelectionRow) (res : List ResultRow) (g t : Nat) :
    ∃ pod, make_podium config dfs fd (groupDataFor sc dfs fd sel res g t) = some pod := by
  obtain ⟨w1, h1⟩ := get_winner_isSome
    (infoFor_ne_some_nil sc fd .seq (lenByGroup fd sel) (trackResults dfs res) g)
  obtain ⟨w2, h2⟩ := get_winner_isSome
    (infoFor_ne_some_nil sc fd .par (lenByGroup fd sel) (trackResults dfs res) g)
  obtain ⟨w3, h3⟩ := get_winner_isSome
    (infoFor_ne_some_nil sc fd .sat (lenByGroup fd sel) (trackResults dfs res) g)
  obtain ⟨w4, h4⟩ := get_winner_isSome
    (infoFor_ne_some_nil sc fd .unsat (lenByGroup fd sel) (trackResults dfs res) g)
  obtain ⟨w5, h5⟩ := get_winner_isSome
    (infoFor_ne_some_nil sc fd .twentyfour (lenByGroup fd sel) (trackResults dfs res) g)
  cases hmp : make_podium config dfs fd (groupDataFor sc dfs fd sel res g t) with
  | some pod => exact ⟨pod, rfl⟩
  | none =>
    exfalso
    simp only [make_podium, groupDataFor, h1, h2, h3, h4, h5, Option.bind_eq_bind,
      Option.some_bind, Option.pure_def] at hmp
    exact Option.noConfusion hmp

theorem optionsAll_map_eq_some {α β : Type} (f : α → Option β) (l : List α)
    (h : ∀ x ∈ l, ∃ y, f x = some y) :
    ∃ out, optionsAll (l.map f) = some out ∧
      ∀ x ∈ l, ∃ y, f x = some y ∧ y ∈ out := by
  induction l with
  | nil => exact ⟨[], rfl, by simp⟩
  | cons a l ih =>
    obtain ⟨y, hy⟩ := h a (List.mem_cons_self _ _)
    obtain ⟨out, hout, hmem⟩ := ih (fun x hx => h x (List.mem_cons_of_mem _ hx))
    refine ⟨y :: out, ?_, ?_⟩
    · rw [List.map_cons, hy, optionsAll, hout]
      rfl
    · intro x hx
      rcases List.mem_cons.mp hx with rfl | hx'
      · exact ⟨y, hy, List.mem_cons_self _ _⟩
      · obtain ⟨z, hz, hzo⟩ := hmem x hx'
        exact ⟨z, hz, List.mem_cons_of_mem _ hzo⟩

/-- The generation step always succeeds, and produces one record per entry
of the totals table, keyed by the group's display name. -/
theorem sq_generate_datas_eq_some (sc : Scoring) (dfs : Defs) (config : Config)
    (sel : List SelectionRow) (res : List ResultRow) (fd : Bool) :
    ∃ out, sq_generate_datas sc dfs config sel res fd = some out ∧
      ∀ gt ∈ lenByGroup fd sel, ∃ pod,
        make_podium config dfs fd (groupDataFor sc dfs fd sel res gt.1 gt.2) = some pod ∧
        ((if fd then dfs.divisionName else dfs.logicName) gt.1, pod) ∈ out := by
  obtain ⟨out, hout, hmem⟩ := optionsAll_map_eq_some
    (fun gt => (make_podium config dfs fd
        (groupDataFor sc dfs fd sel res gt.1 gt.2)).map
      (fun pod => ((if fd then dfs.divisionName else dfs.logicName) gt.1, pod)))
    (lenByGroup fd sel)
    (fun gt _ => by
      obtain ⟨pod, hpod⟩ :=
        make_podium_groupDataFor_isSome sc dfs config fd sel res gt.1 gt.2
      exact ⟨((if fd then dfs.divisionName else dfs.logicName) gt.1, pod), by
        simp only [hpod, Option.map_some']⟩)
  refine ⟨out, hout, ?_⟩
  intro gt hgt
  obtain ⟨y, hy, hyo⟩ := hmem gt hgt
  rw [Option.map_eq_some'] at hy
  obtain ⟨pod, hpod, hpy⟩ := hy
  exact ⟨pod, hpod, hpy ▸ hyo⟩

/-! ### C2: the winner rule -/

/-- **C2.** For every assembled record and every scoring variant, the
declared winner is the solver identifier of the first element of that
variant's ranked list, and the no-winner sentinel `"-"` exactly when the
list is empty or its first element's correctness score equals zero — i.e.
each winner field agrees with the spec's winner rule `winnerSpec` applied to
the emitted ranked list. -/
theorem c2_winner_rule (config : Config) (dfs : Defs) (fd : Bool) (d : GroupData)
    (pod : PodiumDivision) (h : make_podium config dfs fd d = some pod) (k : Kind) :
    pod.kindWinner k = winnerSpec (pod.kindSteps k) := by
  obtain ⟨hw, hs, -, -⟩ := make_podium_inv h
  have hw' := hw k
  rw [hs k]
  cases hagg : d.kindAgg k with
  | none =>
    rw [hagg] at hw'
    simp only [get_winner, Option.some.injEq] at hw'
    rw [← hw']
    rfl
  | some l =>
    cases l with
    | nil =>
      rw [hagg] at hw'
      simp only [get_winner] at hw'
      exact Option.noConfusion hw'
    | cons x rest =>
      rw [hagg] at hw'
      simp only [get_winner, Option.some.injEq] at hw'
      rw [← hw']
      simp only [podium_steps, List.map_cons, winnerSpec]

theorem groupDataFor_kindAgg (sc : Scoring) (dfs : Defs) (fd : Bool)
    (sel : List SelectionRow) (res : List ResultRow) (g t : Nat) (k : Kind) :
    (groupDataFor sc dfs fd sel res g t).kindAgg k =
      infoFor sc fd k (lenByGroup fd sel) (trackResults dfs res) g := by
  cases k <;> rfl

theorem infoFor_eq_some {sc : Scoring} {fd : Bool} {kind : Kind}
    {totals : List (Nat × Nat)} {results : List ResultRow} {g : Nat} {l : List SolverAgg}
    (h : infoFor sc fd kind totals results g = some l) :
    l = rankedFor sc fd g (joinedFor sc fd kind totals results) := by
  rw [infoFor] at h
  split at h
  · exact Option.noConfusion h
  · exact (Option.some.injEq _ _ ▸ h).symm

/-! ### C10: emitted score fields -/

/-- **C10.** For every entry of every emitted ranked list, the `errorScore`
field is the arithmetic negation of the sum of the per-row error scores of
that (group, variant, solver) cell, while the correctness, CPU and
wall-clock fields are the plain (unnegated) sums. -/
theorem c10_errorScore_negated (sc : Scoring) (dfs : Defs) (config : Config) (fd : Bool)
    (sel : List SelectionRow) (res : List ResultRow) (g t : Nat) (pod : PodiumDivision)
    (h : make_podium config dfs fd (groupDataFor sc dfs fd sel res g t) = some pod)
    (k : Kind) (st : PodiumStep) (hst : st ∈ pod.kindSteps k) :
    st.errorScore = -(((rowsFor fd g st.name
        (joinedFor sc fd k (lenByGroup fd sel) (trackResults dfs res))).map
      (fun rt => rt.1.error_score)).sum) ∧
    st.correctScore = ((rowsFor fd g st.name
        (joinedFor sc fd k (lenByGroup fd sel) (trackResults dfs res))).map
      (fun rt => rt.1.correctly_solved_score)).sum ∧
    st.CPUScore = ((rowsFor fd g st.name
        (joinedFor sc fd k (lenByGroup fd sel) (trackResults dfs res))).map
      (fun rt => rt.1.cpu_time_score)).sum ∧
    st.WallScore = ((rowsFor fd g st.name
        (joinedFor sc fd k (lenByGroup fd sel) (trackResults dfs res))).map
      (fun rt => rt.1.wallclock_time_score)).sum := by
  obtain ⟨-, hs, -, -⟩ := make_podium_inv h
  rw [hs k, groupDataFor_kindAgg] at hst
  cases hfo : infoFor sc fd k (lenByGroup fd sel) (trackResults dfs res) g with
  | none => rw [hfo] at hst; simp [podium_steps] at hst
  | some l =>
    rw [hfo] at hst
    have hl := infoFor_eq_some hfo
    subst hl
    rw [podium_steps, List.mem_map] at hst
    obtain ⟨a, ha, hsta⟩ := hst
    obtain ⟨haggr, -⟩ := mem_rankedFor ha
    subst hsta
    refine ⟨?_, ?_, ?_, ?_⟩ <;>
      simp only [] <;> rw [haggr] <;> rfl

/-! ### C6: groups absent from a variant -/

/-- **C6.** A group value present in the totals table but absent from a
variant's aggregation output (no joined rows for that group under that
variant) still yields a record — the generation step succeeds — whose
ranked list for that variant is empty and whose winner for that variant is
the no-winner sentinel. -/
theorem c6_missing_variant_is_empty (sc : Scoring) (dfs : Defs) (config : Config)
    (sel : List SelectionRow) (res : List ResultRow) (fd : Bool) (kind : Kind) (g t : Nat)
    (hg : (g, t) ∈ lenByGroup fd sel)
    (habs : groupRows fd g
      (joinedFor sc fd kind (lenByGroup fd sel) (trackResults dfs res)) = []) :
    ∃ out, sq_generate_datas sc dfs config sel res fd = some out ∧
      ∃ pod, ((if fd then dfs.divisionName else dfs.logicName) g, pod) ∈ out ∧
        pod.kindSteps kind = [] ∧ pod.kindWinner kind = "-" := by
  obtain ⟨out, hout, hall⟩ := sq_generate_datas_eq_some sc dfs config sel res fd
  obtain ⟨pod, hpod, hmem⟩ := hall (g, t) hg
  refine ⟨out, hout, pod, hmem, ?_⟩
  obtain ⟨hw, hs, -, -⟩ := make_podium_inv hpod
  have hia : (groupDataFor sc dfs fd sel res g t).kindAgg kind = none := by
    rw [groupDataFor_kindAgg, infoFor]
    simp only [habs, List.isEmpty_nil, if_true]
  have hw' := hw kind
  rw [hia] at hw'
  simp only [get_winner, Option.some.injEq] at hw'
  exact ⟨by rw [hs kind, hia]; rfl, hw'.symm⟩

/-! ### C7: disagreement-flagged rows -/

/-- **C7.** Disagreement-flagged rows contribute to nothing: two result
tables whose disagreement-free rows agree produce identical outputs, so
adding or removing flagged rows leaves every produced record unchanged. -/
theorem c7_disagreements_invisible (sc : Scoring) (dfs : Defs) (config : Config)
    (sel : List SelectionRow) (res1 res2 : List ResultRow)
    (h : res1.filter (fun r => !r.disagreements) = res2.filter (fun r => !r.disagreements)) :
    export_results sc dfs config sel res1 = export_results sc dfs config sel res2 := by
  simp only [export_results, h]

/-! ### C8: the track filter -/

/-- **C8.** Only single-query rows contribute: two result tables whose
single-query rows agree produce identical generation outputs, so rows of
every other track are invisible to filtering, grouping and scoring. -/
theorem c8_only_single_query_rows (sc : Scoring) (dfs : Defs) (config : Config)
    (sel : List SelectionRow) (res1 res2 : List ResultRow) (fd : Bool)
    (h : trackResults dfs res1 = trackResults dfs res2) :
    sq_generate_datas sc dfs config sel res1 fd =
      sq_generate_datas sc dfs config sel res2 fd := by
  have hgd : ∀ g t, groupDataFor sc dfs fd sel res1 g t =
      groupDataFor sc dfs fd sel res2 g t := by
    intro g t
    simp only [groupDataFor, h]
  simp only [sq_generate_datas, hgd]

/-! ### C5: more rows than total -/

/-- **C5, counterexample.** The claim says an over-contributing solver must
make the aggregation fail; instead, on a group with one selected benchmark
and a solver contributing two rows, the aggregation succeeds — the whole
generation step succeeds — and the UInt32 subtraction wraps, emitting the
solver's aggregate with `abstained = 4294967295` (`2 ^ 32 - 1`), neither a
fatal error nor a negative or zero-clamped value. -/
theorem c5_counterexample :
    totalSelected true selC5 0 = 1 ∧
    (rowsFor true 0 "B" (joinedFor scW true Kind.seq (lenByGroup true selC5)
      (trackResults dfsW resC5))).length = 2 ∧
    (rankedFor scW true 0 (joinedFor scW true Kind.seq (lenByGroup true selC5)
      (trackResults dfsW resC5))).map SolverAgg.abstained = [4294967295] ∧
    (sq_generate_datas scW dfsW cfgW selC5 resC5 true).isSome = true := by
  refine ⟨rfl, rfl, rfl, rfl⟩

/-- **C5 (amended).** If a solver contributes more result rows to a group
than the group's total of selected benchmarks, the aggregation does not
fail: the UInt32 subtraction wraps, and the pipeline produces that solver's
aggregate record with the huge positive value
`abstained = 2 ^ 32 - (rows - total)` — neither an error, nor a negative
value, nor a clamp to zero. -/
theorem c5_wrapped_abstained_emitted (sc : Scoring) (dfs : Defs) (fd : Bool) (kind : Kind)
    (sel : List SelectionRow) (res : List ResultRow) (g : Nat) (a : SolverAgg)
    (ha : a ∈ rankedFor sc fd g
      (joinedFor sc fd kind (lenByGroup fd sel) (trackResults dfs res)))
    (hgt : totalSelected fd sel g < (rowsFor fd g a.solver
      (joinedFor sc fd kind (lenByGroup fd sel) (trackResults dfs res))).length)
    (hlt : (rowsFor fd g a.solver
      (joinedFor sc fd kind (lenByGroup fd sel) (trackResults dfs res))).length < u32) :
    a.abstained = u32 - ((rowsFor fd g a.solver
        (joinedFor sc fd kind (lenByGroup fd sel) (trackResults dfs res))).length -
      totalSelected fd sel g) ∧
    0 < a.abstained := by
  have h := abstained_eq ha
  rw [h, subU32_of_gt hgt hlt]
  have hpos : 0 < u32 - ((rowsFor fd g a.solver
      (joinedFor sc fd kind (lenByGroup fd sel) (trackResults dfs res))).length -
    totalSelected fd sel g) := by
    simp only [u32] at hlt ⊢
    omega
  exact ⟨rfl, hpos⟩

/-! ### C9: the logic breakdown -/

theorem dictInsert_of_not_mem {m : List (String × Nat)} {kv : String × Nat}
    (h : ∀ p ∈ m, p.1 ≠ kv.1) : dictInsert m kv = m ++ [kv] := by
  have hany : m.any (fun p => decide (p.1 = kv.1)) = false := by
    rw [List.any_eq_false]
    intro p hp
    simpa using h p hp
  rw [dictInsert, hany]
  simp

theorem foldl_dictInsert_eq_append (l : List (String × Nat)) :
    ∀ acc : List (String × Nat), (acc.map Prod.fst ++ l.map Prod.fst).Nodup →
      l.foldl dictInsert acc = acc ++ l := by
  induction l with
  | nil => intro acc _; simp
  | cons kv l ih =>
    intro acc h
    rw [List.foldl_cons]
    have hdisj := List.disjoint_of_nodup_append h
    have hnew : ∀ p ∈ acc, p.1 ≠ kv.1 := by
      intro p hp heq
      refine hdisj (List.mem_map_of_mem Prod.fst hp) ?_
      rw [List.map_cons]
      exact heq ▸ List.mem_cons_self _ _
    rw [dictInsert_of_not_mem hnew]
    rw [ih (acc ++ [kv]) (by simpa using h)]
    simp

/-- Building a python dict from pairs with distinct keys keeps the pairs as
they are. -/
theorem dictOfList_of_nodup_keys {l : List (String × Nat)}
    (h : (l.map Prod.fst).Nodup) : dictOfList l = l := by
  have := foldl_dictInsert_eq_append l [] (by simpa using h)
  simpa [dictOfList] using this

/-- The entries of the per-division logic table: exactly the logics
occurring among the division's selected benchmarks, each with its count. -/
theorem mem_logicsOf {sel : List SelectionRow} {dv l n : Nat} :
    (l, n) ∈ logicsOf sel dv ↔
      (l ∈ ((selectedRows sel).filter (fun s => decide (s.division = dv))).map
          (fun s => s.logic) ∧
        n = (((selectedRows sel).filter (fun s => decide (s.division = dv))).filter
          (fun s => decide (s.logic = l))).length) := by
  constructor
  · intro h
    simp only [logicsOf, List.mem_map] at h
    obtain ⟨a, ha, heq⟩ := h
    rw [Prod.mk.injEq] at heq
    obtain ⟨rfl, rfl⟩ := heq
    exact ⟨(mem_firstKeys _ _).mp ha, rfl⟩
  · rintro ⟨hl, rfl⟩
    simp only [logicsOf, List.mem_map]
    exact ⟨l, (mem_firstKeys _ _).mpr hl, rfl⟩

/-- **C9.** When grouping by division, the assembled record's logic
breakdown consists of exactly the entries of the division's
(logic, selected-benchmark count) table rendered through the logic-name map
(a permutation of it), ordered strictly ascending by logic name (provided
the name map does not collide on the division's logics); and that table maps
exactly the logics occurring among the division's selected benchmarks to
their counts.  When grouping by logic, the breakdown is empty. -/
theorem c9_logic_breakdown (sc : Scoring) (dfs : Defs) (config : Config)
    (sel : List SelectionRow) (res : List ResultRow) (g t : Nat)
    (pod podL : PodiumDivision) :
    (make_podium config dfs true (groupDataFor sc dfs true sel res g t) = some pod →
      ((logicsOf sel g).map (fun p => dfs.logicName p.1)).Nodup →
      List.Perm pod.logics
        ((logicsOf sel g).map (fun p => (dfs.logicName p.1, p.2))) ∧
      pod.logics.Pairwise (fun p q => p.1 < q.1)) ∧
    (∀ l n : Nat, (l, n) ∈ logicsOf sel g ↔
      (l ∈ ((selectedRows sel).filter (fun s => decide (s.division = g))).map
          (fun s => s.logic) ∧
        n = (((selectedRows sel).filter (fun s => decide (s.division = g))).filter
          (fun s => decide (s.logic = l))).length)) ∧
    (make_podium config dfs false (groupDataFor sc dfs false sel res g t) = some podL →
      podL.logics = []) := by
  refine ⟨?_, fun l n => mem_logicsOf, ?_⟩
  · intro h hnn
    obtain ⟨-, -, hlogics, -⟩ := make_podium_inv h
    simp only [groupDataFor, if_true] at hlogics
    have hkeys : (((logicsOf sel g).map
        (fun p => (dfs.logicName p.1, p.2))).map Prod.fst).Nodup := by
      simpa [List.map_map, Function.comp] using hnn
    rw [dictOfList_of_nodup_keys hkeys] at hlogics
    have hperm : List.Perm pod.logics
        ((logicsOf sel g).map (fun p => (dfs.logicName p.1, p.2))) := by
      rw [hlogics]
      exact List.perm_insertionSort pairLE _
    refine ⟨hperm, ?_⟩
    have hsorted : pod.logics.Pairwise pairLE := by
      rw [hlogics]
      exact List.sorted_insertionSort pairLE _
    have hpwm : ((logicsOf sel g).map (fun p => (dfs.logicName p.1, p.2))).Pairwise
        (fun p q => p.1 ≠ q.1) := List.pairwise_map.mp hkeys
    have hpw : pod.logics.Pairwise (fun p q : String × Nat => p.1 ≠ q.1) :=
      (hperm.pairwise_iff (fun {_ _} hne he => hne he.symm)).mpr hpwm
    refine (hsorted.and hpw).imp ?_
    rintro p q ⟨hle, hne⟩
    rcases (Prod.Lex.le_iff p q).mp hle with hlt | ⟨heq, -⟩
    · exact hlt
    · exact absurd heq hne
  · intro h
    obtain ⟨-, -, hlogics, -⟩ := make_podium_inv h
    simpa using hlogics

/-! ### Witnesses: the theorems applied to the concrete instances -/

/-- C2 at the concrete record `podW`. -/
theorem c2_winner_rule_witness :
    make_podium cfgW dfsW true (groupDataFor scW dfsW true selW resW 0 1) = some podW ∧
    podW.kindWinner Kind.seq = winnerSpec (podW.kindSteps Kind.seq) :=
  ⟨rfl, c2_winner_rule cfgW dfsW true (groupDataFor scW dfsW true selW resW 0 1) podW rfl
    Kind.seq⟩

/-- C3 (amended) at the concrete aggregate `aggW`. -/
theorem c3_counts_sum_mod_u32_witness :
    (∀ r ∈ scW.filter_for Kind.seq (trackResults dfsW resW), outcomeCount scW r = 1) ∧
    aggW ∈ rankedFor scW true 0 (joinedFor scW true Kind.seq (lenByGroup true selW)
      (trackResults dfsW resW)) ∧
    ((aggW.solved + aggW.unsolved + aggW.timeout + aggW.memout + aggW.abstained) % u32 =
      totalSelected true selW 0 % u32 ∧
    ((rowsFor true 0 aggW.solver
        (joinedFor scW true Kind.seq (lenByGroup true selW)
          (trackResults dfsW resW))).length ≤ totalSelected true selW 0 →
      totalSelected true selW 0 < u32 →
      aggW.solved + aggW.unsolved + aggW.timeout + aggW.memout + aggW.abstained =
        totalSelected true selW 0)) :=
  ⟨by decide, by decide,
    c3_counts_sum_mod_u32 scW dfsW true Kind.seq selW resW 0 aggW (by decide) (by decide)⟩

/-- C4 (amended) at the concrete aggregate `aggW`. -/
theorem c4_abstained_wrapped_witness :
    aggW ∈ rankedFor scW true 0 (joinedFor scW true Kind.seq (lenByGroup true selW)
      (trackResults dfsW resW)) ∧
    (aggW.abstained = subU32 (totalSelected true selW 0) ((rowsFor true 0 aggW.solver
        (joinedFor scW true Kind.seq (lenByGroup true selW)
          (trackResults dfsW resW))).length) ∧
    ((rowsFor true 0 aggW.solver
        (joinedFor scW true Kind.seq (lenByGroup true selW)
          (trackResults dfsW resW))).length ≤ totalSelected true selW 0 →
      totalSelected true selW 0 < u32 →
      (aggW.abstained : Int) = (totalSelected true selW 0 : Int) -
        ((rowsFor true 0 aggW.solver
          (joinedFor scW true Kind.seq (lenByGroup true selW)
            (trackResults dfsW resW))).length : Int))) :=
  ⟨by decide,
    c4_abstained_wrapped scW dfsW true Kind.seq selW resW 0 aggW (by decide)⟩

/-- C5 (amended) at the concrete aggregate `aggC5`. -/
theorem c5_wrapped_abstained_emitted_witness :
    aggC5 ∈ rankedFor scW true 0 (joinedFor scW true Kind.seq (lenByGroup true selC5)
      (trackResults dfsW resC5)) ∧
    totalSelected true selC5 0 < (rowsFor true 0 aggC5.solver
      (joinedFor scW true Kind.seq (lenByGroup true selC5)
        (trackResults dfsW resC5))).length ∧
    (rowsFor true 0 aggC5.solver
      (joinedFor scW true Kind.seq (lenByGroup true selC5)
        (trackResults dfsW resC5))).length < u32 ∧
    (aggC5.abstained = u32 - ((rowsFor true 0 aggC5.solver
        (joinedFor scW true Kind.seq (lenByGroup true selC5)
          (trackResults dfsW resC5))).length - totalSelected true selC5 0) ∧
      0 < aggC5.abstained) :=
  ⟨by decide, by decide, by decide,
    c5_wrapped_abstained_emitted scW dfsW true Kind.seq selC5 resC5 0 aggC5 (by decide)
      (by decide) (by decide)⟩

/-- C6 at a concrete input with no result rows at all. -/
theorem c6_missing_variant_is_empty_witness :
    (0, 1) ∈ lenByGroup true selW ∧
    groupRows true 0 (joinedFor scW true Kind.par (lenByGroup true selW)
      (trackResults dfsW [])) = [] ∧
    (∃ out, sq_generate_datas scW dfsW cfgW selW [] true = some out ∧
      ∃ pod, ((if true then dfsW.divisionName else dfsW.logicName) 0, pod) ∈ out ∧
        pod.kindSteps Kind.par = [] ∧ pod.kindWinner Kind.par = "-") :=
  ⟨by decide, rfl,
    c6_missing_variant_is_empty scW dfsW cfgW selW [] true Kind.par 0 1 (by decide) rfl⟩

/-- C7 at a concrete input with an added disagreement-flagged row. -/
theorem c7_disagreements_invisible_witness :
    List.filter (fun r => !r.disagreements) [rowW] =
      List.filter (fun r => !r.disagreements) [rowW, rowFlagged] ∧
    export_results scW dfsW cfgW selW [rowW] =
      export_results scW dfsW cfgW selW [rowW, rowFlagged] :=
  ⟨rfl, c7_disagreements_invisible scW dfsW cfgW selW [rowW] [rowW, rowFlagged] rfl⟩

/-- C8 at a concrete input with an added row of a different track. -/
theorem c8_only_single_query_rows_witness :
    trackResults dfsW [rowW] = trackResults dfsW [rowW, rowOtherTrack] ∧
    sq_generate_datas scW dfsW cfgW selW [rowW] true =
      sq_generate_datas scW dfsW cfgW selW [rowW, rowOtherTrack] true :=
  ⟨rfl, c8_only_single_query_rows scW dfsW cfgW selW [rowW] [rowW, rowOtherTrack] true rfl⟩

/-- C9 at the concrete records `podW` and `podLW`. -/
theorem c9_logic_breakdown_witness :
    ((logicsOf selW 0).map (fun p => dfsW.logicName p.1)).Nodup ∧
    List.Perm podW.logics ((logicsOf selW 0).map (fun p => (dfsW.logicName p.1, p.2))) ∧
    podW.logics.Pairwise (fun p q => p.1 < q.1) ∧
    podLW.logics = [] := by
  obtain ⟨h1, -, h3⟩ := c9_logic_breakdown scW dfsW cfgW selW resW 0 1 podW podLW
  have hp := h1 rfl (by decide)
  exact ⟨by decide, hp.1, hp.2, h3 rfl⟩

/-- C10 at the concrete emitted entry `stepW`. -/
theorem c10_errorScore_negated_witness :
    make_podium cfgW dfsW true (groupDataFor scW dfsW true selW resW 0 1) = some podW ∧
    stepW ∈ podW.kindSteps Kind.seq ∧
    (stepW.errorScore = -(((rowsFor true 0 stepW.name
        (joinedFor scW true Kind.seq (lenByGroup true selW) (trackResults dfsW resW))).map
      (fun rt => rt.1.error_score)).sum) ∧
    stepW.correctScore = ((rowsFor true 0 stepW.name
        (joinedFor scW true Kind.seq (lenByGroup true selW) (trackResults dfsW resW))).map
      (fun rt => rt.1.correctly_solved_score)).sum ∧
    stepW.CPUScore = ((rowsFor true 0 stepW.name
        (joinedFor scW true Kind.seq (lenByGroup true selW) (trackResults dfsW resW))).map
      (fun rt => rt.1.cpu_time_score)).sum ∧
    stepW.WallScore = ((rowsFor true 0 stepW.name
        (joinedFor scW true Kind.seq (lenByGroup true selW) (trackResults dfsW resW))).map
      (fun rt => rt.1.wallclock_time_score)).sum) :=
  ⟨rfl, by decide,
    c10_errorScore_negated scW dfsW cfgW true selW resW 0 1 podW rfl Kind.seq stepW
      (by decide)⟩

end SmtComp
